import Mathlib

/-!
# Verification of `SpringEmbeddersGPUAlgorithm`

A shallow embedding of `src/js/SpringEmbeddersGPUAlgorithm.js`.

Modelling conventions:
* JS numbers are modelled as rationals (`ℚ`); all arithmetic in the file is
  exact (no floating point is needed by the verified properties).
* A graph node's `neighbours` array holds references to other node objects;
  the code resolves a reference to a linear index with
  `graph.nodes.indexOf(neighbour)`.  We model a neighbour reference directly
  as its linear index (`Nat`), so `indexOf` is the identity.  Well-formedness
  (every neighbour index is a valid node index) is an explicit hypothesis
  where the corresponding JS behaviour would depend on `indexOf` succeeding.
* JS arrays become `List`s; a 2-d matrix of cells is a `List (List cell)`.
  `Array.prototype[i] = v` on an in-bounds index becomes `List.set`; the code
  never writes out of bounds.
* `Math.random()` is modelled as an oracle `rand : Nat → ℚ`, consumed in call
  order (two draws per node in `setGraph`).
* The gpu.js kernel created in `_createKernel` is a pure function of the
  position grid and the kernel constant `speed`; its output is a
  `outputSize × outputSize` grid (`outputSize = this._nodesMatrix.length`).
* Reading a property of `undefined` (e.g. `this._positionsMatrix[0].length`
  when the matrix is empty) throws a `TypeError` in JS; `computeNextPositions`
  is therefore modelled as returning `Option` and yields `none` exactly there.
-/

/-- `Math.ceil(Math.sqrt n)` for a natural `n` (exact in double precision for
the relevant range). -/
def ceilSqrt (n : Nat) : Nat :=
  if n = 0 then 0 else Nat.sqrt (n - 1) + 1

/-- A graph node: mutable position `(x, y)`, the `isFixed` flag and the list
of neighbours (modelled as linear indices, see the header). -/
structure Node where
  x : ℚ
  y : ℚ
  isFixed : Bool
  neighbours : List Nat
deriving Repr, DecidableEq

/-- `_create3dMatrix(rows, columns, depth, defaultValue)`: a `rows × columns`
matrix with every cell holding the default.  The `depth` copies of the default
value in one cell are modelled by instantiating `α` with a tuple type. -/
def mkMatrix (rows cols : Nat) (v : α) : List (List α) :=
  List.replicate rows (List.replicate cols v)

/-- Write a single cell of a matrix (`matrix[r][c] = v`); out-of-bounds
writes are never performed by the embedded code. -/
def setCell (m : List (List α)) (r c : Nat) (v : α) : List (List α) :=
  m.set r ((m.getD r []).set c v)

/-- Read a single cell of a matrix (`matrix[r][c]`), with an explicit default
for out-of-bounds reads (never hit by the embedded code). -/
def getCell (m : List (List α)) (r c : Nat) (d : α) : α :=
  (m.getD r []).getD c d

/-- `_indexToMatrixCoordinates(index, rows, columns)`:
`[Math.floor(index / rows), index % columns]`.  All call sites pass a square
size (`rows = columns`).  When `rows = 0` (a graph with no edges) JS produces
`NaN`; that coordinate is only ever stored for a node with an empty adjacency
run and is never dereferenced, so natural division (`0 / 0 = 0`) is adequate. -/
def indexToMatrixCoordinates (index rows columns : Nat) : Nat × Nat :=
  (index / rows, index % columns)

/-- The sentinel a fresh position-matrix cell holds (`-1` fill). -/
def posSentinel : ℚ × ℚ := (-1, -1)

/-- The sentinel a fresh node-matrix cell holds (`-1` fill). -/
def nodeSentinel : Int × Int × Int := (-1, -1, -1)

/-- The sentinel a fresh adjacency-matrix cell holds (`-1` fill). -/
def adjSentinel : Int × Int := (-1, -1)

/-- The algorithm object's mutable fields.  `kernelSize` is the `outputSize`
captured by `_createKernel` and `kernelSpeed` is the mutable kernel constant
`this._kernel.constants.speed`. -/
structure AlgorithmState where
  width : ℚ
  height : ℚ
  speed : ℚ
  springRestLength : ℚ
  springDampening : ℚ
  charge : ℚ
  positionsMatrix : List (List (ℚ × ℚ))
  adjacencyMatrix : List (List (Int × Int))
  nodesMatrix : List (List (Int × Int × Int))
  kernelSize : Nat
  kernelSpeed : ℚ
  nodes : List Node
deriving Repr, DecidableEq

/-- The state set up by the constructor body before `setGraph(graph)` runs
(lines 4–25): default parameters, empty GPU data. -/
def initialState (width height : ℚ) : AlgorithmState :=
  { width := width
    height := height
    speed := 1 / 100
    springRestLength := 10
    springDampening := 1 / 10
    charge := 150 * 150
    positionsMatrix := []
    adjacencyMatrix := []
    nodesMatrix := []
    kernelSize := 0
    kernelSpeed := 3
    nodes := [] }

/-- The argument record of `setProperties`.  A field is `none` when absent
(`undefined`); the JS falsy values a rational can take are `none` and
`some 0`. -/
structure Properties where
  speed : Option ℚ
  springDampening : Option ℚ
  springRestLength : Option ℚ
  charge : Option ℚ
deriving Repr, DecidableEq

/-- The JS merge idiom `properties.f || this._f`: keep the old value exactly
when the supplied one is falsy (absent or `0`). -/
def orDefault (v : Option ℚ) (old : ℚ) : ℚ :=
  match v with
  | none => old
  | some x => if x = 0 then old else x

/-- `setProperties(properties)` (lines 28–33). -/
def setProperties (st : AlgorithmState) (p : Properties) : AlgorithmState :=
  { st with
    speed := orDefault p.speed st.speed
    springDampening := orDefault p.springDampening st.springDampening
    springRestLength := orDefault p.springRestLength st.springRestLength
    charge := orDefault p.charge st.charge }

/-- The inner `forEach` of `_createGraphMatrices` (lines 130–139): store each
neighbour's node-matrix coordinates at the cursor's cell and advance the
cursor.  Returns the updated adjacency matrix and cursor. -/
def fillNeighbours (A P : Nat) (neighbours : List Nat) (cursor : Nat)
    (adjM : List (List (Int × Int))) : List (List (Int × Int)) × Nat :=
  match neighbours with
  | [] => (adjM, cursor)
  | j :: rest =>
    let c := indexToMatrixCoordinates cursor A A
    let n := indexToMatrixCoordinates j P P
    fillNeighbours A P rest (cursor + 1)
      (setCell adjM c.1 c.2 ((n.1 : Int), (n.2 : Int)))

/-- The main loop of `_createGraphMatrices` (lines 111–140), recursing over
the remaining nodes with the running linear index `i` and the shared
adjacency cursor. -/
def encodeNodes (P A : Nat) (nodes : List Node) (i cursor : Nat)
    (posM : List (List (ℚ × ℚ))) (nodesM : List (List (Int × Int × Int)))
    (adjM : List (List (Int × Int))) :
    List (List (ℚ × ℚ)) × List (List (Int × Int × Int))
      × List (List (Int × Int)) :=
  match nodes with
  | [] => (posM, nodesM, adjM)
  | node :: rest =>
    let a := indexToMatrixCoordinates cursor A A
    let n := indexToMatrixCoordinates i P P
    let nodesM' := setCell nodesM n.1 n.2
      ((a.1 : Int), (a.2 : Int), (node.neighbours.length : Int))
    let posM' := setCell posM n.1 n.2 (node.x, node.y)
    let fill := fillNeighbours A P node.neighbours cursor adjM
    encodeNodes P A rest (i + 1) fill.2 posM' nodesM' fill.1

/-- `E`: the total number of directed neighbour links (line 98). -/
def totalNumberOfEdges (nodes : List Node) : Nat :=
  (nodes.map (fun n => n.neighbours.length)).sum

/-- `_createGraphMatrices` (lines 90–145): builds the position, node and
adjacency matrices of the current graph. -/
def createGraphMatrices (nodes : List Node) :
    List (List (ℚ × ℚ)) × List (List (Int × Int × Int))
      × List (List (Int × Int)) :=
  let nodesMatrixSize := ceilSqrt nodes.length
  let adjacencyMatrixSize := ceilSqrt (totalNumberOfEdges nodes)
  encodeNodes nodesMatrixSize adjacencyMatrixSize nodes 0 0
    (mkMatrix nodesMatrixSize nodesMatrixSize posSentinel)
    (mkMatrix nodesMatrixSize nodesMatrixSize nodeSentinel)
    (mkMatrix adjacencyMatrixSize adjacencyMatrixSize adjSentinel)

/-- One run of the gpu.js kernel of `_createKernel` (lines 39–50): an
`outputSize × outputSize` grid whose cell `(row, col)` is
`[x + constants.speed, y + 0.1]` for `[x, y] = positions[row][col]`. -/
def kernelRun (outputSize : Nat) (speed : ℚ) (positions : List (List (ℚ × ℚ))) :
    List (List (ℚ × ℚ)) :=
  (List.range outputSize).map fun row =>
    (List.range outputSize).map fun col =>
      let p := getCell positions row col posSentinel
      (p.1 + speed, p.2 + 1 / 10)

/-- Overwrite node `idx`'s position (`[node.x, node.y] = ...`,
line 198), leaving `isFixed` and `neighbours` alone. -/
def writeNodePos (nodes : List Node) (idx : Nat) (p : ℚ × ℚ) : List Node :=
  match nodes[idx]? with
  | none => nodes
  | some node => nodes.set idx { node with x := p.1, y := p.2 }

/-- The inner `for col` loop of the write-back in `computeNextPositions`
(lines 193–200) for one fixed `row`. -/
def writeBackRow (pm : List (List (ℚ × ℚ))) (rows row cols : Nat)
    (nodes : List Node) : List Node :=
  (List.range cols).foldl
    (fun ns col =>
      let nodeIndex := row * rows + col
      if nodeIndex < ns.length then
        writeNodePos ns nodeIndex (getCell pm row col posSentinel)
      else ns)
    nodes

/-- The write-back double loop of `computeNextPositions` (lines 192–201). -/
def writeBackLoop (pm : List (List (ℚ × ℚ))) (rows cols : Nat)
    (nodes : List Node) : List Node :=
  (List.range rows).foldl (fun ns row => writeBackRow pm rows row cols ns) nodes

/-- `computeNextPositions` (lines 183–202).  The kernel constant is bumped by
3, the kernel produces the next position grid, and the grid is copied back
onto the graph's nodes.  Reading `this._positionsMatrix[0].length` throws a
`TypeError` when the grid is empty; that is the `none` case. -/
def computeNextPositions (st : AlgorithmState) : Option AlgorithmState :=
  match kernelRun st.kernelSize (st.kernelSpeed + 3) st.positionsMatrix with
  | [] => none
  | firstRow :: tail =>
    some { st with
      positionsMatrix := firstRow :: tail
      kernelSpeed := st.kernelSpeed + 3
      nodes := writeBackLoop (firstRow :: tail) (firstRow :: tail).length
        firstRow.length st.nodes }

/-- `_setUpGPU` (lines 152–155): rebuild the matrices from the current graph
and recreate the kernel (capturing `outputSize = nodesMatrix.length` and
resetting the kernel constant to `3`). -/
def setUpGPU (st : AlgorithmState) : AlgorithmState :=
  let m := createGraphMatrices st.nodes
  { st with
    positionsMatrix := m.1
    nodesMatrix := m.2.1
    adjacencyMatrix := m.2.2
    kernelSize := m.2.1.length
    kernelSpeed := 3 }

/-- The `forEach` body of `setGraph` (lines 159–163): overwrite every node's
position with a pseudo-random point near the canvas centre and clear the
fixed flag.  `rand` is the `Math.random()` oracle; node `i` consumes draws
`2 * i` and `2 * i + 1`. -/
def setGraphNodes (width height : ℚ) (rand : Nat → ℚ) (nodes : List Node) :
    List Node :=
  nodes.mapIdx fun i node =>
    { node with
      x := width / 2 + 100 * rand (2 * i) - 50
      y := height / 2 + (100 * rand (2 * i + 1) - 50)
      isFixed := false }

/-- `setGraph(graph)` (lines 157–166). -/
def setGraph (st : AlgorithmState) (graph : List Node) (rand : Nat → ℚ) :
    AlgorithmState :=
  setUpGPU { st with nodes := setGraphNodes st.width st.height rand graph }

/-- `n` consecutive calls to `computeNextPositions`. -/
def tickN : Nat → AlgorithmState → Option AlgorithmState
  | 0, st => some st
  | n + 1, st => (computeNextPositions st).bind (tickN n)

/-- Read the cell at row-major flat index `k` of a matrix whose rows have
length `size`: cell `(k / size, k % size)`. -/
def getFlat (m : List (List α)) (size k : Nat) (d : α) : α :=
  getCell m (k / size) (k % size) d

/-- The adjacency cursor value when node `k`'s turn starts: the sum of the
degrees of the nodes before it. -/
def prefixDegrees (nodes : List Node) (k : Nat) : Nat :=
  totalNumberOfEdges (nodes.take k)

/-- The number of adjacency-grid cells holding something other than the
`-1` fill. -/
def countPopulated (m : List (List (Int × Int))) : Nat :=
  (m.map fun row => row.countP fun v => decide (v ≠ adjSentinel)).sum

/-- `deg` sequential row-major reads of the adjacency grid starting at flat
index `start` (wrapping row-major across the `A × A` grid). -/
def readRun (adjM : List (List (Int × Int))) (A start deg : Nat) :
    List (Int × Int) :=
  (List.range deg).map fun a => getFlat adjM A (start + a) adjSentinel

/-- Convert a stored grid coordinate back to the linear node index it
denotes (`row * P + col`). -/
def coordToIndex (P : Nat) (v : Int × Int) : Nat :=
  v.1.toNat * P + v.2.toNat

/-- The value `_createGraphMatrices` stores in an adjacency cell for the
neighbour with linear index `j`: that node's node-matrix coordinates. -/
def neighbourEntry (P j : Nat) : Int × Int :=
  (((j / P : Nat) : Int), ((j % P : Nat) : Int))

/-- The value `_createGraphMatrices` stores in the node matrix for a node
whose adjacency run starts at flat cursor position `cursor` and whose degree
is `deg`. -/
def nodeEntry (A cursor deg : Nat) : Int × Int × Int :=
  (((cursor / A : Nat) : Int), ((cursor % A : Nat) : Int), (deg : Int))

/-- The decode direction: the write-back loop of `computeNextPositions`
(lines 189–201) applied to a position grid, copying grid cells back onto the
graph nodes (`rows = matrix.length`, `columns = matrix[0].length`). -/
def decodeGraph (pm : List (List (ℚ × ℚ))) (nodes : List Node) : List Node :=
  writeBackLoop pm pm.length ((pm.getD 0 []).length) nodes

/-- A matrix has `rows` rows, each of length `cols`. -/
def isGrid (m : List (List α)) (rows cols : Nat) : Prop :=
  m.length = rows ∧ ∀ row ∈ m, row.length = cols

/-- Every neighbour reference resolves to a node of the graph (in JS: no
`indexOf` miss). -/
def wellFormed (nodes : List Node) : Prop :=
  ∀ n ∈ nodes, ∀ j ∈ n.neighbours, j < nodes.length

/-- A two-node graph joined by one (mirrored) edge, nodes at `(0,0)` and
`(10,0)`: exactly the rest length apart under the default parameters. -/
def pairGraph : List Node := [⟨0, 0, false, [1]⟩, ⟨10, 0, false, [0]⟩]

/-- The engine state after constructing the algorithm on `pairGraph` and
encoding it (positions taken as given, bypassing the random scatter). -/
def pairState : AlgorithmState :=
  setUpGPU { initialState 1000 1000 with nodes := pairGraph }

/-- A one-node graph whose node is flagged fixed, encoded. -/
def fixedState : AlgorithmState :=
  setUpGPU { initialState 1000 1000 with nodes := [⟨0, 0, true, []⟩] }

/-- The empty graph, encoded. -/
def emptyState : AlgorithmState :=
  setUpGPU { initialState 800 600 with nodes := [] }

/-! ## Matrix cell lemmas -/

theorem length_setCell (m : List (List α)) (r c : Nat) (v : α) :
    (setCell m r c v).length = m.length := by
  simp [setCell]

theorem getD_row_length {m : List (List α)} {rows cols : Nat}
    (h : isGrid m rows cols) {r : Nat} (hr : r < rows) :
    (m.getD r []).length = cols := by
  obtain ⟨hlen, hrow⟩ := h
  have hrm : r < m.length := by omega
  rw [List.getD_eq_getElem _ _ hrm]
  exact hrow _ (List.getElem_mem hrm)

theorem getCell_setCell_self {m : List (List α)} (r c : Nat) (v d : α)
    (hr : r < m.length) (hc : c < (m.getD r []).length) :
    getCell (setCell m r c v) r c d = v := by
  unfold getCell setCell
  simp only [List.getD_eq_getElem?_getD] at hc ⊢
  rw [List.getElem?_set_self hr]
  simp only [Option.getD_some]
  rcases h0 : (m[r]?) with _ | row
  · simp [h0] at hc
  · simp only [h0, Option.getD_some] at hc ⊢
    rw [List.getElem?_set_self hc]
    simp

theorem getCell_setCell_ne {m : List (List α)} {r c r' c' : Nat} (v d : α)
    (h : r ≠ r' ∨ c ≠ c') :
    getCell (setCell m r c v) r' c' d = getCell m r' c' d := by
  unfold getCell setCell
  simp only [List.getD_eq_getElem?_getD]
  rcases h with h | h
  · rw [List.getElem?_set_ne h]
  · by_cases hr : r = r'
    · subst hr
      by_cases hrm : r < m.length
      · rw [List.getElem?_set_self hrm]
        simp only [Option.getD_some]
        rcases h0 : (m[r]?) with _ | row
        · simp [hrm] at h0
        · simp only [h0, Option.getD_some]
          rw [List.getElem?_set_ne h]
      · rw [List.set_eq_of_length_le (by omega)]
    · rw [List.getElem?_set_ne hr]

theorem isGrid_mkMatrix (rows cols : Nat) (v : α) :
    isGrid (mkMatrix rows cols v) rows cols := by
  constructor
  · simp [mkMatrix]
  · intro row hrow
    have := List.eq_of_mem_replicate hrow
    simp [this]

theorem isGrid_setCell {m : List (List α)} {rows cols : Nat}
    (h : isGrid m rows cols) (r c : Nat) (v : α) :
    isGrid (setCell m r c v) rows cols := by
  by_cases hrm : r < m.length
  · constructor
    · simp [setCell, h.1]
    · intro row hrow
      rcases List.mem_or_eq_of_mem_set hrow with hmem | heq
      · exact h.2 _ hmem
      · subst heq
        rw [List.length_set]
        exact getD_row_length h (by rw [← h.1]; exact hrm)
  · unfold setCell
    rw [List.set_eq_of_length_le (by omega)]
    exact h

theorem flat_coord_inj {A k t : Nat} (hdiv : k / A = t / A)
    (hmod : k % A = t % A) : k = t := by
  conv_lhs => rw [← Nat.div_add_mod k A]
  rw [hdiv, hmod, Nat.div_add_mod]

theorem getFlat_setCell_self {m : List (List α)} {A k : Nat} (v d : α)
    (hg : isGrid m A A) (hk : k < A * A) :
    getFlat (setCell m (k / A) (k % A) v) A k d = v := by
  have hA : 0 < A := by
    rcases Nat.eq_zero_or_pos A with h | h
    · simp [h] at hk
    · exact h
  have hdiv : k / A < A := Nat.div_lt_of_lt_mul hk
  have hmod : k % A < A := Nat.mod_lt _ hA
  unfold getFlat
  exact getCell_setCell_self _ _ _ _ (by rw [hg.1]; exact hdiv)
    (by rw [getD_row_length hg hdiv]; exact hmod)

theorem getFlat_setCell_ne {m : List (List α)} {A k t : Nat} (v d : α)
    (hne : k ≠ t) :
    getFlat (setCell m (t / A) (t % A) v) A k d = getFlat m A k d := by
  unfold getFlat
  apply getCell_setCell_ne
  by_cases hd : t / A = k / A
  · right
    intro hm
    exact hne (flat_coord_inj hd.symm hm.symm)
  · left; exact hd

theorem getFlat_mkMatrix (rows cols k : Nat) (v : α) :
    getFlat (mkMatrix rows cols v) rows k v = v := by
  unfold getFlat getCell mkMatrix
  simp only [List.getD_eq_getElem?_getD, List.getElem?_replicate]
  by_cases hr : k / rows < rows <;> by_cases hc : k % rows < cols <;>
    simp [hr, hc, List.getElem?_replicate]

/-! ## Counting populated adjacency cells -/

theorem neighbourEntry_ne_sentinel (P j : Nat) :
    neighbourEntry P j ≠ adjSentinel := by
  unfold neighbourEntry adjSentinel
  intro h
  have h1 : ((j / P : Nat) : Int) = -1 := congrArg Prod.fst h
  have h2 : (0 : Int) ≤ ((j / P : Nat) : Int) := Int.natCast_nonneg _
  rw [h1] at h2
  norm_num at h2

theorem countP_set (l : List α) (p : α → Bool) (c : Nat) (v b : α)
    (hb : l[c]? = some b) (hold : p b = false) (hv : p v = true) :
    (l.set c v).countP p = l.countP p + 1 := by
  induction l generalizing c with
  | nil => simp at hb
  | cons a t ih =>
    cases c with
    | zero =>
      simp only [List.getElem?_cons_zero, Option.some.injEq] at hb
      subst hb
      simp [List.countP_cons, hold, hv]
    | succ c =>
      simp only [List.getElem?_cons_succ] at hb
      simp only [List.set, List.countP_cons]
      rw [ih c hb]
      omega

theorem sum_map_set (l : List α) (f : α → Nat) (i : Nat) (a b : α)
    (hb : l[i]? = some b) :
    ((l.set i a).map f).sum + f b = (l.map f).sum + f a := by
  induction l generalizing i with
  | nil => simp at hb
  | cons x t ih =>
    cases i with
    | zero =>
      simp only [List.getElem?_cons_zero, Option.some.injEq] at hb
      subst hb
      simp only [List.set, List.map_cons, List.sum_cons]
      omega
    | succ i =>
      simp only [List.getElem?_cons_succ] at hb
      simp only [List.set, List.map_cons, List.sum_cons]
      have h2 := ih i hb
      omega

theorem countPopulated_setCell {m : List (List (Int × Int))} {r c : Nat}
    (v : Int × Int) (hr : r < m.length) (hc : c < (m.getD r []).length)
    (hold : getCell m r c adjSentinel = adjSentinel) (hv : v ≠ adjSentinel) :
    countPopulated (setCell m r c v) = countPopulated m + 1 := by
  have hrq : m[r]? = some (m.getD r []) := by
    rw [List.getD_eq_getElem?_getD, List.getElem?_eq_getElem hr]
    rfl
  have hcq : (m.getD r [])[c]? = some (getCell m r c adjSentinel) := by
    unfold getCell
    rw [List.getD_eq_getElem?_getD (m.getD r []) c adjSentinel,
      List.getElem?_eq_getElem hc]
    rfl
  have h1 := countP_set (m.getD r []) (fun w => decide (w ≠ adjSentinel)) c v
    (getCell m r c adjSentinel) hcq (by simp [hold]) (by simpa using hv)
  have h2 := sum_map_set m (fun row => row.countP fun w => decide (w ≠ adjSentinel))
    r ((m.getD r []).set c v) (m.getD r []) hrq
  unfold countPopulated setCell
  simp only at h2
  omega

theorem lt_length_of_getElemQ {l : List α} {n : Nat} {x : α}
    (h : l[n]? = some x) : n < l.length := by
  by_contra hcon
  rw [List.getElem?_eq_none (by omega)] at h
  exact Option.noConfusion h

/-! ## Characterizing the adjacency fill -/

theorem fillNeighbours_cons (A P j : Nat) (rest : List Nat) (cursor : Nat)
    (adjM : List (List (Int × Int))) :
    fillNeighbours A P (j :: rest) cursor adjM
      = fillNeighbours A P rest (cursor + 1)
          (setCell adjM (cursor / A) (cursor % A) (neighbourEntry P j)) := rfl

theorem fillNeighbours_cursor (A P : Nat) (js : List Nat) (cursor : Nat)
    (adjM : List (List (Int × Int))) :
    (fillNeighbours A P js cursor adjM).2 = cursor + js.length := by
  induction js generalizing cursor adjM with
  | nil => simp [fillNeighbours]
  | cons j rest ih =>
    rw [fillNeighbours_cons, ih]
    simp only [List.length_cons]
    omega

theorem fillNeighbours_isGrid {A P : Nat} {js : List Nat} {cursor : Nat}
    {adjM : List (List (Int × Int))} (hg : isGrid adjM A A) :
    isGrid (fillNeighbours A P js cursor adjM).1 A A := by
  induction js generalizing cursor adjM with
  | nil => exact hg
  | cons j rest ih =>
    rw [fillNeighbours_cons]
    exact ih (isGrid_setCell hg _ _ _)

theorem fillNeighbours_pres {A P : Nat} {js : List Nat} {cursor k : Nat}
    {adjM : List (List (Int × Int))} (d : Int × Int)
    (hk : k < cursor ∨ cursor + js.length ≤ k) :
    getFlat (fillNeighbours A P js cursor adjM).1 A k d = getFlat adjM A k d := by
  induction js generalizing cursor adjM with
  | nil => rfl
  | cons j rest ih =>
    rw [fillNeighbours_cons]
    simp only [List.length_cons] at hk
    have hne : k ≠ cursor := by omega
    have hk2 : k < cursor + 1 ∨ cursor + 1 + rest.length ≤ k := by omega
    rw [ih hk2, getFlat_setCell_ne _ _ hne]

theorem fillNeighbours_content {A P : Nat} {js : List Nat} {cursor a j : Nat}
    {adjM : List (List (Int × Int))} (hg : isGrid adjM A A)
    (hbound : cursor + js.length ≤ A * A) (ha : js[a]? = some j) :
    getFlat (fillNeighbours A P js cursor adjM).1 A (cursor + a) adjSentinel
      = neighbourEntry P j := by
  induction js generalizing cursor adjM a with
  | nil => simp at ha
  | cons j0 rest ih =>
    simp only [List.length_cons] at hbound
    rw [fillNeighbours_cons]
    cases a with
    | zero =>
      simp only [List.getElem?_cons_zero, Option.some.injEq] at ha
      subst ha
      rw [fillNeighbours_pres _ (by left; omega)]
      exact getFlat_setCell_self _ _ hg (by omega)
    | succ a =>
      simp only [List.getElem?_cons_succ] at ha
      have : cursor + (a + 1) = (cursor + 1) + a := by omega
      rw [this]
      exact ih (isGrid_setCell hg _ _ _) (by omega) ha

theorem fillNeighbours_count {A P : Nat} {js : List Nat} {cursor : Nat}
    {adjM : List (List (Int × Int))} (hg : isGrid adjM A A)
    (hbound : cursor + js.length ≤ A * A)
    (hsent : ∀ t, cursor ≤ t → t < A * A →
      getFlat adjM A t adjSentinel = adjSentinel) :
    countPopulated (fillNeighbours A P js cursor adjM).1
      = countPopulated adjM + js.length := by
  induction js generalizing cursor adjM with
  | nil => simp [fillNeighbours]
  | cons j0 rest ih =>
    simp only [List.length_cons] at hbound
    rw [fillNeighbours_cons]
    have hcur : cursor < A * A := by omega
    have hA : 0 < A := by
      rcases Nat.eq_zero_or_pos A with h | h
      · simp [h] at hcur
      · exact h
    have hdiv : cursor / A < A := Nat.div_lt_of_lt_mul hcur
    have hstep : countPopulated
        (setCell adjM (cursor / A) (cursor % A) (neighbourEntry P j0))
          = countPopulated adjM + 1 := by
      apply countPopulated_setCell _ (by rw [hg.1]; exact hdiv)
        (by rw [getD_row_length hg hdiv]; exact Nat.mod_lt _ hA)
        (hsent cursor (Nat.le_refl _) hcur)
        (neighbourEntry_ne_sentinel _ _)
    rw [ih (isGrid_setCell hg _ _ _) (by omega)
        (fun t ht1 ht2 => by
          rw [getFlat_setCell_ne _ _ (by omega)]
          exact hsent t (by omega) ht2),
      hstep]
    simp only [List.length_cons]
    omega

/-! ## Characterizing the encode loop -/

theorem totalNumberOfEdges_cons (n : Node) (rest : List Node) :
    totalNumberOfEdges (n :: rest)
      = n.neighbours.length + totalNumberOfEdges rest := by
  simp [totalNumberOfEdges]

theorem prefixDegrees_zero (nodes : List Node) : prefixDegrees nodes 0 = 0 := by
  simp [prefixDegrees, totalNumberOfEdges]

theorem prefixDegrees_cons_succ (n : Node) (rest : List Node) (k : Nat) :
    prefixDegrees (n :: rest) (k + 1)
      = n.neighbours.length + prefixDegrees rest k := by
  simp [prefixDegrees, totalNumberOfEdges]

theorem prefixDegrees_add_le {nodes : List Node} {k : Nat} {node : Node}
    (hk : nodes[k]? = some node) :
    prefixDegrees nodes k + node.neighbours.length ≤ totalNumberOfEdges nodes := by
  induction nodes generalizing k with
  | nil => simp at hk
  | cons n rest ih =>
    cases k with
    | zero =>
      simp only [List.getElem?_cons_zero, Option.some.injEq] at hk
      subst hk
      rw [prefixDegrees_zero, totalNumberOfEdges_cons]
      omega
    | succ k =>
      simp only [List.getElem?_cons_succ] at hk
      rw [prefixDegrees_cons_succ, totalNumberOfEdges_cons]
      have := ih hk
      omega

theorem encodeNodes_cons (P A : Nat) (node : Node) (rest : List Node)
    (i cursor : Nat) (posM : List (List (ℚ × ℚ)))
    (nodesM : List (List (Int × Int × Int)))
    (adjM : List (List (Int × Int))) :
    encodeNodes P A (node :: rest) i cursor posM nodesM adjM
      = encodeNodes P A rest (i + 1)
          (fillNeighbours A P node.neighbours cursor adjM).2
          (setCell posM (i / P) (i % P) (node.x, node.y))
          (setCell nodesM (i / P) (i % P)
            (nodeEntry A cursor node.neighbours.length))
          (fillNeighbours A P node.neighbours cursor adjM).1 := rfl

theorem encodeNodes_isGrid {P A : Nat} {nodes : List Node} {i cursor : Nat}
    {posM : List (List (ℚ × ℚ))} {nodesM : List (List (Int × Int × Int))}
    {adjM : List (List (Int × Int))}
    (hp : isGrid posM P P) (hn : isGrid nodesM P P) (ha : isGrid adjM A A) :
    isGrid (encodeNodes P A nodes i cursor posM nodesM adjM).1 P P
      ∧ isGrid (encodeNodes P A nodes i cursor posM nodesM adjM).2.1 P P
      ∧ isGrid (encodeNodes P A nodes i cursor posM nodesM adjM).2.2 A A := by
  induction nodes generalizing i cursor posM nodesM adjM with
  | nil => exact ⟨hp, hn, ha⟩
  | cons node rest ih =>
    rw [encodeNodes_cons]
    exact ih (isGrid_setCell hp _ _ _) (isGrid_setCell hn _ _ _)
      (fillNeighbours_isGrid ha)

theorem encodeNodes_pos_pres {P A : Nat} {nodes : List Node} {i cursor k : Nat}
    {posM : List (List (ℚ × ℚ))} {nodesM : List (List (Int × Int × Int))}
    {adjM : List (List (Int × Int))} (d : ℚ × ℚ)
    (hk : k < i ∨ i + nodes.length ≤ k) :
    getFlat (encodeNodes P A nodes i cursor posM nodesM adjM).1 P k d
      = getFlat posM P k d := by
  induction nodes generalizing i cursor posM nodesM adjM with
  | nil => rfl
  | cons node rest ih =>
    rw [encodeNodes_cons]
    simp only [List.length_cons] at hk
    have hne : k ≠ i := by omega
    have hk2 : k < i + 1 ∨ i + 1 + rest.length ≤ k := by omega
    rw [ih hk2, getFlat_setCell_ne _ _ hne]

theorem encodeNodes_nodes_pres {P A : Nat} {nodes : List Node} {i cursor k : Nat}
    {posM : List (List (ℚ × ℚ))} {nodesM : List (List (Int × Int × Int))}
    {adjM : List (List (Int × Int))} (d : Int × Int × Int)
    (hk : k < i ∨ i + nodes.length ≤ k) :
    getFlat (encodeNodes P A nodes i cursor posM nodesM adjM).2.1 P k d
      = getFlat nodesM P k d := by
  induction nodes generalizing i cursor posM nodesM adjM with
  | nil => rfl
  | cons node rest ih =>
    rw [encodeNodes_cons]
    simp only [List.length_cons] at hk
    have hne : k ≠ i := by omega
    have hk2 : k < i + 1 ∨ i + 1 + rest.length ≤ k := by omega
    rw [ih hk2, getFlat_setCell_ne _ _ hne]

theorem encodeNodes_adj_pres {P A : Nat} {nodes : List Node} {i cursor k : Nat}
    {posM : List (List (ℚ × ℚ))} {nodesM : List (List (Int × Int × Int))}
    {adjM : List (List (Int × Int))} (d : Int × Int)
    (hk : k < cursor ∨ cursor + totalNumberOfEdges nodes ≤ k) :
    getFlat (encodeNodes P A nodes i cursor posM nodesM adjM).2.2 A k d
      = getFlat adjM A k d := by
  induction nodes generalizing i cursor posM nodesM adjM with
  | nil => rfl
  | cons node rest ih =>
    rw [encodeNodes_cons]
    rw [totalNumberOfEdges_cons] at hk
    rw [fillNeighbours_cursor] at *
    have hk2 : k < cursor + node.neighbours.length
        ∨ cursor + node.neighbours.length + totalNumberOfEdges rest ≤ k := by
      omega
    rcases hk2 with h2 | h2
    · rw [ih (by left; omega)]
      exact fillNeighbours_pres _ (by rcases hk with h | h <;> omega)
    · rw [ih (by right; omega)]
      exact fillNeighbours_pres _ (by right; omega)

theorem encodeNodes_pos_get {P A : Nat} {nodes : List Node} {i cursor k : Nat}
    {node : Node} {posM : List (List (ℚ × ℚ))}
    {nodesM : List (List (Int × Int × Int))} {adjM : List (List (Int × Int))}
    (hp : isGrid posM P P) (hbound : i + nodes.length ≤ P * P)
    (hk : nodes[k]? = some node) :
    getFlat (encodeNodes P A nodes i cursor posM nodesM adjM).1 P (i + k)
      posSentinel = (node.x, node.y) := by
  induction nodes generalizing i cursor k posM nodesM adjM with
  | nil => simp at hk
  | cons n0 rest ih =>
    simp only [List.length_cons] at hbound
    rw [encodeNodes_cons]
    cases k with
    | zero =>
      simp only [List.getElem?_cons_zero, Option.some.injEq] at hk
      subst hk
      rw [Nat.add_zero, encodeNodes_pos_pres _ (by left; omega)]
      exact getFlat_setCell_self _ _ hp (by omega)
    | succ k =>
      simp only [List.getElem?_cons_succ] at hk
      have harr : i + (k + 1) = (i + 1) + k := by omega
      rw [harr]
      exact ih (isGrid_setCell hp _ _ _) (by omega) hk

theorem encodeNodes_nodes_get {P A : Nat} {nodes : List Node}
    {i cursor k : Nat} {node : Node} {posM : List (List (ℚ × ℚ))}
    {nodesM : List (List (Int × Int × Int))} {adjM : List (List (Int × Int))}
    (hn : isGrid nodesM P P) (hbound : i + nodes.length ≤ P * P)
    (hk : nodes[k]? = some node) :
    getFlat (encodeNodes P A nodes i cursor posM nodesM adjM).2.1 P (i + k)
      nodeSentinel
      = nodeEntry A (cursor + prefixDegrees nodes k) node.neighbours.length := by
  induction nodes generalizing i cursor k posM nodesM adjM with
  | nil => simp at hk
  | cons n0 rest ih =>
    simp only [List.length_cons] at hbound
    rw [encodeNodes_cons]
    cases k with
    | zero =>
      simp only [List.getElem?_cons_zero, Option.some.injEq] at hk
      subst hk
      rw [Nat.add_zero, prefixDegrees_zero, Nat.add_zero,
        encodeNodes_nodes_pres _ (by left; omega)]
      exact getFlat_setCell_self _ _ hn (by omega)
    | succ k =>
      simp only [List.getElem?_cons_succ] at hk
      have harr : i + (k + 1) = (i + 1) + k := by omega
      rw [harr, prefixDegrees_cons_succ, fillNeighbours_cursor]
      have harr2 : cursor + (n0.neighbours.length + prefixDegrees rest k)
          = (cursor + n0.neighbours.length) + prefixDegrees rest k := by omega
      rw [harr2]
      exact ih (isGrid_setCell hn _ _ _) (by omega) hk

theorem encodeNodes_adj_get {P A : Nat} {nodes : List Node}
    {i cursor k a j : Nat} {node : Node} {posM : List (List (ℚ × ℚ))}
    {nodesM : List (List (Int × Int × Int))} {adjM : List (List (Int × Int))}
    (ha : isGrid adjM A A) (hbound : cursor + totalNumberOfEdges nodes ≤ A * A)
    (hk : nodes[k]? = some node) (haj : node.neighbours[a]? = some j) :
    getFlat (encodeNodes P A nodes i cursor posM nodesM adjM).2.2 A
      (cursor + prefixDegrees nodes k + a) adjSentinel = neighbourEntry P j := by
  induction nodes generalizing i cursor k posM nodesM adjM with
  | nil => simp at hk
  | cons n0 rest ih =>
    rw [totalNumberOfEdges_cons] at hbound
    rw [encodeNodes_cons, fillNeighbours_cursor]
    cases k with
    | zero =>
      simp only [List.getElem?_cons_zero, Option.some.injEq] at hk
      subst hk
      have haa : a < n0.neighbours.length := lt_length_of_getElemQ haj
      rw [prefixDegrees_zero, Nat.add_zero,
        encodeNodes_adj_pres _ (by left; omega)]
      exact fillNeighbours_content ha (by omega) haj
    | succ k =>
      simp only [List.getElem?_cons_succ] at hk
      rw [prefixDegrees_cons_succ]
      have harr : cursor + (n0.neighbours.length + prefixDegrees rest k) + a
          = (cursor + n0.neighbours.length) + prefixDegrees rest k + a := by
        omega
      rw [harr]
      exact ih (fillNeighbours_isGrid ha) (by omega) hk

theorem encodeNodes_count {P A : Nat} {nodes : List Node} {i cursor : Nat}
    {posM : List (List (ℚ × ℚ))} {nodesM : List (List (Int × Int × Int))}
    {adjM : List (List (Int × Int))}
    (ha : isGrid adjM A A) (hbound : cursor + totalNumberOfEdges nodes ≤ A * A)
    (hsent : ∀ t, cursor ≤ t → t < A * A →
      getFlat adjM A t adjSentinel = adjSentinel) :
    countPopulated (encodeNodes P A nodes i cursor posM nodesM adjM).2.2
      = countPopulated adjM + totalNumberOfEdges nodes := by
  induction nodes generalizing i cursor posM nodesM adjM with
  | nil => simp [encodeNodes, totalNumberOfEdges]
  | cons n0 rest ih =>
    rw [totalNumberOfEdges_cons] at hbound ⊢
    rw [encodeNodes_cons, fillNeighbours_cursor]
    have hfill := @fillNeighbours_count A P n0.neighbours cursor adjM
      ha (by omega) (fun t ht1 ht2 => hsent t ht1 ht2)
    rw [ih (fillNeighbours_isGrid ha) (by omega)
        (fun t ht1 ht2 => by
          rw [fillNeighbours_pres _ (by right; omega)]
          exact hsent t (by omega) ht2),
      hfill]
    omega

/-! ## The encoded matrices of a whole graph -/

theorem le_ceilSqrt_sq (n : Nat) : n ≤ ceilSqrt n * ceilSqrt n := by
  unfold ceilSqrt
  by_cases h : n = 0
  · simp [h]
  · simp only [h, if_false]
    have h2 := Nat.lt_succ_sqrt (n - 1)
    rw [Nat.succ_eq_add_one] at h2
    omega

theorem createGraphMatrices_eq (nodes : List Node) :
    createGraphMatrices nodes
      = encodeNodes (ceilSqrt nodes.length) (ceilSqrt (totalNumberOfEdges nodes))
          nodes 0 0
          (mkMatrix (ceilSqrt nodes.length) (ceilSqrt nodes.length) posSentinel)
          (mkMatrix (ceilSqrt nodes.length) (ceilSqrt nodes.length) nodeSentinel)
          (mkMatrix (ceilSqrt (totalNumberOfEdges nodes))
            (ceilSqrt (totalNumberOfEdges nodes)) adjSentinel) := rfl

theorem createGraphMatrices_isGrid (nodes : List Node) :
    isGrid (createGraphMatrices nodes).1 (ceilSqrt nodes.length)
        (ceilSqrt nodes.length)
      ∧ isGrid (createGraphMatrices nodes).2.1 (ceilSqrt nodes.length)
        (ceilSqrt nodes.length)
      ∧ isGrid (createGraphMatrices nodes).2.2
        (ceilSqrt (totalNumberOfEdges nodes))
        (ceilSqrt (totalNumberOfEdges nodes)) := by
  rw [createGraphMatrices_eq]
  exact encodeNodes_isGrid (isGrid_mkMatrix _ _ _) (isGrid_mkMatrix _ _ _)
    (isGrid_mkMatrix _ _ _)

theorem createGraphMatrices_pos {nodes : List Node} {k : Nat} {node : Node}
    (hk : nodes[k]? = some node) :
    getFlat (createGraphMatrices nodes).1 (ceilSqrt nodes.length) k posSentinel
      = (node.x, node.y) := by
  rw [createGraphMatrices_eq]
  have h := @encodeNodes_pos_get (ceilSqrt nodes.length)
    (ceilSqrt (totalNumberOfEdges nodes)) nodes 0 0 k node
    (mkMatrix (ceilSqrt nodes.length) (ceilSqrt nodes.length) posSentinel)
    (mkMatrix (ceilSqrt nodes.length) (ceilSqrt nodes.length) nodeSentinel)
    (mkMatrix (ceilSqrt (totalNumberOfEdges nodes))
      (ceilSqrt (totalNumberOfEdges nodes)) adjSentinel)
    (isGrid_mkMatrix _ _ _)
    (by simpa using le_ceilSqrt_sq nodes.length) hk
  simpa using h

theorem createGraphMatrices_nodes {nodes : List Node} {k : Nat} {node : Node}
    (hk : nodes[k]? = some node) :
    getFlat (createGraphMatrices nodes).2.1 (ceilSqrt nodes.length)
        k nodeSentinel
      = nodeEntry (ceilSqrt (totalNumberOfEdges nodes)) (prefixDegrees nodes k)
          node.neighbours.length := by
  rw [createGraphMatrices_eq]
  have h := @encodeNodes_nodes_get (ceilSqrt nodes.length)
    (ceilSqrt (totalNumberOfEdges nodes)) nodes 0 0 k node
    (mkMatrix (ceilSqrt nodes.length) (ceilSqrt nodes.length) posSentinel)
    (mkMatrix (ceilSqrt nodes.length) (ceilSqrt nodes.length) nodeSentinel)
    (mkMatrix (ceilSqrt (totalNumberOfEdges nodes))
      (ceilSqrt (totalNumberOfEdges nodes)) adjSentinel)
    (isGrid_mkMatrix _ _ _)
    (by simpa using le_ceilSqrt_sq nodes.length) hk
  simpa using h

theorem createGraphMatrices_adj {nodes : List Node} {k a j : Nat} {node : Node}
    (hk : nodes[k]? = some node) (haj : node.neighbours[a]? = some j) :
    getFlat (createGraphMatrices nodes).2.2
        (ceilSqrt (totalNumberOfEdges nodes))
        (prefixDegrees nodes k + a) adjSentinel
      = neighbourEntry (ceilSqrt nodes.length) j := by
  rw [createGraphMatrices_eq]
  have h := @encodeNodes_adj_get (ceilSqrt nodes.length)
    (ceilSqrt (totalNumberOfEdges nodes)) nodes 0 0 k a j node
    (mkMatrix (ceilSqrt nodes.length) (ceilSqrt nodes.length) posSentinel)
    (mkMatrix (ceilSqrt nodes.length) (ceilSqrt nodes.length) nodeSentinel)
    (mkMatrix (ceilSqrt (totalNumberOfEdges nodes))
      (ceilSqrt (totalNumberOfEdges nodes)) adjSentinel)
    (isGrid_mkMatrix _ _ _)
    (by simpa using le_ceilSqrt_sq (totalNumberOfEdges nodes)) hk haj
  simpa using h

theorem countPopulated_mkMatrix (rows cols : Nat) :
    countPopulated (mkMatrix rows cols adjSentinel) = 0 := by
  unfold countPopulated mkMatrix
  rw [List.map_replicate]
  have hrow : (List.replicate cols adjSentinel).countP
      (fun v => decide (v ≠ adjSentinel)) = 0 := by
    rw [List.countP_eq_zero]
    intro a ha
    have := List.eq_of_mem_replicate ha
    subst this
    simp
  rw [hrow]
  simp

theorem createGraphMatrices_count (nodes : List Node) :
    countPopulated (createGraphMatrices nodes).2.2
      = totalNumberOfEdges nodes := by
  rw [createGraphMatrices_eq]
  have h := @encodeNodes_count (ceilSqrt nodes.length)
    (ceilSqrt (totalNumberOfEdges nodes)) nodes 0 0
    (mkMatrix (ceilSqrt nodes.length) (ceilSqrt nodes.length) posSentinel)
    (mkMatrix (ceilSqrt nodes.length) (ceilSqrt nodes.length) nodeSentinel)
    (mkMatrix (ceilSqrt (totalNumberOfEdges nodes))
      (ceilSqrt (totalNumberOfEdges nodes)) adjSentinel)
    (isGrid_mkMatrix _ _ _)
    (by simpa using le_ceilSqrt_sq (totalNumberOfEdges nodes))
    (fun t ht1 ht2 => getFlat_mkMatrix _ _ _ _)
  rw [h, countPopulated_mkMatrix]
  omega

/-! ## Characterizing the write-back loop -/

theorem length_writeNodePos (ns : List Node) (idx : Nat) (p : ℚ × ℚ) :
    (writeNodePos ns idx p).length = ns.length := by
  unfold writeNodePos
  cases h : ns[idx]? <;> simp

theorem writeNodePos_getElemQ (ns : List Node) (idx : Nat) (p : ℚ × ℚ)
    (k : Nat) :
    (writeNodePos ns idx p)[k]?
      = if k = idx
        then (ns[k]?).map fun node => { node with x := p.1, y := p.2 }
        else ns[k]? := by
  unfold writeNodePos
  cases h : ns[idx]? with
  | none =>
    by_cases hk : k = idx
    · subst hk
      simp [h]
    · simp [hk]
  | some node =>
    by_cases hk : k = idx
    · subst hk
      rw [List.getElem?_set_self (lt_length_of_getElemQ h)]
      simp [h]
    · rw [List.getElem?_set_ne (fun hcon => hk hcon.symm)]
      simp [hk]

theorem writeBackRow_zero (pm : List (List (ℚ × ℚ))) (rows row : Nat)
    (ns : List Node) : writeBackRow pm rows row 0 ns = ns := rfl

theorem writeBackRow_succ (pm : List (List (ℚ × ℚ))) (rows row cols : Nat)
    (ns : List Node) :
    writeBackRow pm rows row (cols + 1) ns
      = (fun ns2 => if row * rows + cols < ns2.length
          then writeNodePos ns2 (row * rows + cols) (getCell pm row cols posSentinel)
          else ns2) (writeBackRow pm rows row cols ns) := by
  unfold writeBackRow
  rw [List.range_succ, List.foldl_append]
  rfl

theorem length_writeBackRow (pm : List (List (ℚ × ℚ))) (rows row cols : Nat)
    (ns : List Node) : (writeBackRow pm rows row cols ns).length = ns.length := by
  induction cols with
  | zero => rfl
  | succ cols ih =>
    rw [writeBackRow_succ]
    simp only []
    by_cases h : row * rows + cols < (writeBackRow pm rows row cols ns).length
    · rw [if_pos h, length_writeNodePos, ih]
    · rw [if_neg h, ih]

theorem writeBackRow_getElemQ (pm : List (List (ℚ × ℚ)))
    (rows row cols : Nat) (ns : List Node) (k : Nat) :
    (writeBackRow pm rows row cols ns)[k]?
      = if row * rows ≤ k ∧ k < row * rows + cols
        then (ns[k]?).map fun node =>
          { node with x := (getCell pm row (k - row * rows) posSentinel).1,
                      y := (getCell pm row (k - row * rows) posSentinel).2 }
        else ns[k]? := by
  induction cols with
  | zero =>
    rw [writeBackRow_zero, if_neg]
    omega
  | succ cols ih =>
    rw [writeBackRow_succ]
    simp only []
    by_cases hk : k = row * rows + cols
    · subst hk
      have hc : row * rows + cols - row * rows = cols := by omega
      by_cases hin : row * rows + cols < (writeBackRow pm rows row cols ns).length
      · rw [if_pos hin, writeNodePos_getElemQ, if_pos rfl, ih, if_neg (by omega),
          if_pos (by omega), hc]
      · rw [if_neg hin, ih, if_neg (by omega), if_pos (by omega), hc]
        rw [length_writeBackRow] at hin
        rw [List.getElem?_eq_none (by omega)]
        rfl
    · by_cases hin : row * rows + cols < (writeBackRow pm rows row cols ns).length
      · rw [if_pos hin, writeNodePos_getElemQ, if_neg hk, ih]
        by_cases hcond : row * rows ≤ k ∧ k < row * rows + cols
        · rw [if_pos hcond, if_pos (by omega)]
        · rw [if_neg hcond, if_neg (by omega)]
      · rw [if_neg hin, ih]
        by_cases hcond : row * rows ≤ k ∧ k < row * rows + cols
        · rw [if_pos hcond, if_pos (by omega)]
        · rw [if_neg hcond, if_neg (by omega)]

theorem length_writeBackLoopAux (pm : List (List (ℚ × ℚ))) (rows r : Nat)
    (ns : List Node) :
    ((List.range r).foldl (fun ns2 row => writeBackRow pm rows row rows ns2)
      ns).length = ns.length := by
  induction r generalizing ns with
  | zero => rfl
  | succ r ih =>
    rw [List.range_succ, List.foldl_append]
    simp only [List.foldl_cons, List.foldl_nil]
    rw [length_writeBackRow, ih]

theorem writeBackLoopAux_getElemQ (pm : List (List (ℚ × ℚ))) (rows r : Nat)
    (ns : List Node) (k : Nat) :
    ((List.range r).foldl (fun ns2 row => writeBackRow pm rows row rows ns2)
        ns)[k]?
      = if k < r * rows
        then (ns[k]?).map fun node =>
          { node with x := (getFlat pm rows k posSentinel).1,
                      y := (getFlat pm rows k posSentinel).2 }
        else ns[k]? := by
  induction r generalizing k with
  | zero => simp
  | succ r ih =>
    rw [List.range_succ, List.foldl_append]
    simp only [List.foldl_cons, List.foldl_nil]
    rw [writeBackRow_getElemQ]
    have hsucc : (r + 1) * rows = r * rows + rows := by ring
    have hcomm : rows * r = r * rows := Nat.mul_comm rows r
    by_cases hmid : r * rows ≤ k ∧ k < r * rows + rows
    · have hrows : 0 < rows := by omega
      have hstruct : k = rows * r + (k - r * rows) := by omega
      have hdiv : k / rows = r := by
        conv_lhs => rw [hstruct]
        rw [Nat.mul_add_div hrows]
        have : (k - r * rows) / rows = 0 := Nat.div_eq_of_lt (by omega)
        omega
      have hmod : k % rows = k - r * rows := by
        conv_lhs => rw [hstruct]
        rw [Nat.mul_add_mod]
        exact Nat.mod_eq_of_lt (by omega)
      rw [if_pos hmid, ih, if_neg (by omega), if_pos (by omega)]
      unfold getFlat
      rw [hdiv, hmod]
    · rw [if_neg hmid, ih]
      by_cases hlt : k < r * rows
      · rw [if_pos hlt, if_pos (by omega)]
      · rw [if_neg hlt, if_neg (by omega)]

theorem writeBackLoop_getElemQ (pm : List (List (ℚ × ℚ))) (rows : Nat)
    (ns : List Node) (k : Nat) :
    (writeBackLoop pm rows rows ns)[k]?
      = if k < rows * rows
        then (ns[k]?).map fun node =>
          { node with x := (getFlat pm rows k posSentinel).1,
                      y := (getFlat pm rows k posSentinel).2 }
        else ns[k]? := by
  unfold writeBackLoop
  exact writeBackLoopAux_getElemQ pm rows rows ns k

theorem ceilSqrt_eq_zero_iff (n : Nat) : ceilSqrt n = 0 ↔ n = 0 := by
  constructor
  · intro h
    have := le_ceilSqrt_sq n
    rw [h] at this
    omega
  · intro h
    simp [ceilSqrt, h]

theorem coordToIndex_neighbourEntry (P j : Nat) :
    coordToIndex P (neighbourEntry P j) = j := by
  unfold coordToIndex neighbourEntry
  simp only [Int.toNat_natCast]
  calc j / P * P + j % P = P * (j / P) + j % P := by ring
  _ = j := Nat.div_add_mod j P

theorem coordToIndex_nodeEntry (A c deg : Nat) :
    coordToIndex A ((nodeEntry A c deg).1, (nodeEntry A c deg).2.1) = c := by
  unfold coordToIndex nodeEntry
  simp only [Int.toNat_natCast]
  calc c / A * A + c % A = A * (c / A) + c % A := by ring
  _ = c := Nat.div_add_mod c A

theorem decodeGraph_createGraphMatrices (nodes : List Node) :
    decodeGraph (createGraphMatrices nodes).1 nodes = nodes := by
  have hg := (createGraphMatrices_isGrid nodes).1
  rcases Nat.eq_zero_or_pos (ceilSqrt nodes.length) with hP | hP
  · have hn : nodes.length = 0 := by
      have := le_ceilSqrt_sq nodes.length
      rw [hP] at this
      omega
    have hnodes : nodes = [] := List.length_eq_zero.mp hn
    subst hnodes
    rfl
  · unfold decodeGraph
    rw [hg.1, getD_row_length hg hP]
    apply List.ext_getElem?
    intro k
    rw [writeBackLoop_getElemQ]
    by_cases hk : k < nodes.length
    · rcases h : nodes[k]? with _ | node
      · rw [List.getElem?_eq_getElem hk] at h
        exact Option.noConfusion h
      · have hpos := createGraphMatrices_pos h
        have hsq : k < ceilSqrt nodes.length * ceilSqrt nodes.length :=
          Nat.lt_of_lt_of_le hk (le_ceilSqrt_sq _)
        rw [if_pos hsq]
        simp only [Option.map_some']
        rw [hpos]
    · rcases h : nodes[k]? with _ | node
      · by_cases hsq : k < ceilSqrt nodes.length * ceilSqrt nodes.length
        · rw [if_pos hsq]
          rfl
        · rw [if_neg hsq]
      · exact absurd (lt_length_of_getElemQ h) hk

/-- Claim C3: for every graph, encoding it with `_createGraphMatrices` and
then running the per-node write-back loop of `computeNextPositions` on the
untouched position grid reproduces the graph exactly — in particular the
original `(x, y)` of every node.  Encode-then-decode is the identity. -/
theorem spring_c3 (nodes : List Node) :
    decodeGraph (createGraphMatrices nodes).1 nodes = nodes :=
  decodeGraph_createGraphMatrices nodes

/-- Claim C4: after encoding a (well-formed) graph, the degree recorded in
each node's node-matrix cell (the third component, at flat index `i`, i.e.
cell `(i / P, i % P)`) is that node's true neighbour count, and the number of
adjacency-matrix cells holding real data (`≠ (-1,-1)`) is exactly the total
number of directed neighbour links — the runs allocated by the single cursor
neither overlap nor leave gaps. -/
theorem spring_c4 (nodes : List Node) (hwf : wellFormed nodes) :
    (∀ k node, nodes[k]? = some node →
      (getFlat (createGraphMatrices nodes).2.1 (ceilSqrt nodes.length) k
        nodeSentinel).2.2 = (node.neighbours.length : Int))
    ∧ countPopulated (createGraphMatrices nodes).2.2
        = totalNumberOfEdges nodes := by
  constructor
  · intro k node hk
    rw [createGraphMatrices_nodes hk]
    rfl
  · exact createGraphMatrices_count nodes

/-- Witness for C4 at the concrete two-node, one-edge graph `pairGraph`:
node 0 has recorded degree 1 and the adjacency grid holds exactly 2 populated
cells. -/
theorem spring_c4_witness :
    wellFormed pairGraph
    ∧ (getFlat (createGraphMatrices pairGraph).2.1 (ceilSqrt pairGraph.length)
        0 nodeSentinel).2.2 = ((1 : Nat) : Int)
    ∧ countPopulated (createGraphMatrices pairGraph).2.2
        = totalNumberOfEdges pairGraph := by
  have hwf : wellFormed pairGraph := by
    unfold wellFormed
    decide
  refine ⟨hwf, ?_, (spring_c4 pairGraph hwf).2⟩
  exact (spring_c4 pairGraph hwf).1 0 ⟨0, 0, false, [1]⟩ (by decide)

/-- Claim C8: in the encoded grids with `P = ceil(sqrt N)`, node `i` is
stored at grid coordinate `(i / P, i mod P)` of both the position grid and
the node-index grid (`getFlat m P i` reads exactly that cell), and reading
`degree` consecutive row-major cells of the `A × A` adjacency grid, starting
at the flat position named by the recorded `(adjRow, adjCol)` and wrapping
row-major, recovers exactly the node's neighbour list (mapping each stored
coordinate pair back to the linear index `row * P + col`). -/
theorem spring_c8 (nodes : List Node) (hwf : wellFormed nodes) (k : Nat)
    (node : Node) (hk : nodes[k]? = some node) :
    getFlat (createGraphMatrices nodes).1 (ceilSqrt nodes.length) k posSentinel
        = (node.x, node.y)
    ∧ getFlat (createGraphMatrices nodes).2.1 (ceilSqrt nodes.length) k
        nodeSentinel
        = nodeEntry (ceilSqrt (totalNumberOfEdges nodes))
            (prefixDegrees nodes k) node.neighbours.length
    ∧ (readRun (createGraphMatrices nodes).2.2
          (ceilSqrt (totalNumberOfEdges nodes))
          (coordToIndex (ceilSqrt (totalNumberOfEdges nodes))
            ((getFlat (createGraphMatrices nodes).2.1 (ceilSqrt nodes.length) k
                nodeSentinel).1,
             (getFlat (createGraphMatrices nodes).2.1 (ceilSqrt nodes.length) k
                nodeSentinel).2.1))
          node.neighbours.length).map (coordToIndex (ceilSqrt nodes.length))
        = node.neighbours := by
  refine ⟨createGraphMatrices_pos hk, createGraphMatrices_nodes hk, ?_⟩
  rw [createGraphMatrices_nodes hk, coordToIndex_nodeEntry]
  apply List.ext_getElem?
  intro a
  by_cases ha : a < node.neighbours.length
  · rcases hj : node.neighbours[a]? with _ | j
    · rw [List.getElem?_eq_getElem ha] at hj
      exact Option.noConfusion hj
    · unfold readRun
      rw [List.getElem?_map, List.getElem?_map, List.getElem?_range ha]
      simp only [Option.map_some']
      rw [createGraphMatrices_adj hk hj, coordToIndex_neighbourEntry]
  · unfold readRun
    rw [List.getElem?_map, List.getElem?_map,
      List.getElem?_eq_none (by rw [List.length_range]; omega),
      List.getElem?_eq_none (by omega)]
    rfl

/-- Witness for C8 at `pairGraph` (nodes `0 ↔ 1`), node index `0`: its cell
holds its position and record, and one adjacency read recovers `[1]`. -/
theorem spring_c8_witness :
    getFlat (createGraphMatrices pairGraph).1 (ceilSqrt pairGraph.length) 0
        posSentinel
        = ((Node.mk 0 0 false [1]).x, (Node.mk 0 0 false [1]).y)
    ∧ getFlat (createGraphMatrices pairGraph).2.1 (ceilSqrt pairGraph.length) 0
        nodeSentinel
        = nodeEntry (ceilSqrt (totalNumberOfEdges pairGraph))
            (prefixDegrees pairGraph 0) (Node.mk 0 0 false [1]).neighbours.length
    ∧ (readRun (createGraphMatrices pairGraph).2.2
          (ceilSqrt (totalNumberOfEdges pairGraph))
          (coordToIndex (ceilSqrt (totalNumberOfEdges pairGraph))
            ((getFlat (createGraphMatrices pairGraph).2.1
                (ceilSqrt pairGraph.length) 0 nodeSentinel).1,
             (getFlat (createGraphMatrices pairGraph).2.1
                (ceilSqrt pairGraph.length) 0 nodeSentinel).2.1))
          (Node.mk 0 0 false [1]).neighbours.length).map
        (coordToIndex (ceilSqrt pairGraph.length))
        = (Node.mk 0 0 false [1]).neighbours :=
  spring_c8 pairGraph (by unfold wellFormed; decide) 0 (Node.mk 0 0 false [1])
    (by decide)

/-! ## The tick and the configuration surface -/

theorem computeNextPositions_char {st stq : AlgorithmState}
    (h : computeNextPositions st = some stq) :
    stq.kernelSpeed = st.kernelSpeed + 3
    ∧ stq.positionsMatrix
        = kernelRun st.kernelSize (st.kernelSpeed + 3) st.positionsMatrix := by
  unfold computeNextPositions at h
  cases hk : kernelRun st.kernelSize (st.kernelSpeed + 3) st.positionsMatrix with
  | nil =>
    rw [hk] at h
    exact Option.noConfusion h
  | cons r0 rest =>
    rw [hk] at h
    simp only [Option.some.injEq] at h
    subst h
    exact ⟨rfl, rfl⟩

theorem computeNextPositions_none {st : AlgorithmState}
    (h : st.kernelSize = 0) : computeNextPositions st = none := by
  unfold computeNextPositions kernelRun
  rw [h]
  rfl

theorem tickN_kernelSpeed (n : Nat) (st0 st1 : AlgorithmState)
    (h : tickN n st0 = some st1) :
    st1.kernelSpeed = st0.kernelSpeed + 3 * n := by
  induction n generalizing st0 with
  | zero =>
    unfold tickN at h
    simp only [Option.some.injEq] at h
    subst h
    simp
  | succ n ih =>
    unfold tickN at h
    cases hc : computeNextPositions st0 with
    | none =>
      rw [hc] at h
      exact Option.noConfusion h
    | some stm =>
      rw [hc] at h
      simp only [Option.some_bind] at h
      rw [ih stm h, (computeNextPositions_char hc).1]
      push_cast
      ring

theorem computeNextPositions_speed_eq (st : AlgorithmState) (s : ℚ) :
    computeNextPositions { st with speed := s }
      = (computeNextPositions st).map fun r => { r with speed := s } := by
  unfold computeNextPositions
  cases hk : kernelRun st.kernelSize (st.kernelSpeed + 3) st.positionsMatrix with
  | nil => simp [hk]
  | cons r0 rest => simp [hk]

theorem computeNextPositions_posMatrix_speed (st : AlgorithmState) (s : ℚ) :
    (computeNextPositions { st with speed := s }).map
        AlgorithmState.positionsMatrix
      = (computeNextPositions st).map AlgorithmState.positionsMatrix := by
  rw [computeNextPositions_speed_eq]
  cases computeNextPositions st <;> rfl

/-- Claim C10: the configured `_speed` parameter has no influence on
`computeNextPositions` — two runs differing only in `_speed` produce the same
position grid — while the kernel constant starts at 3 (`_createKernel`) and
is incremented by 3 on every call, so each tick displaces every x-coordinate
by the current constant and the per-tick displacement `3 + 3n` grows beyond
any bound. -/
theorem spring_c10 :
    (∀ (st : AlgorithmState) (u v : ℚ),
        (computeNextPositions { st with speed := u }).map
            AlgorithmState.positionsMatrix
          = (computeNextPositions { st with speed := v }).map
            AlgorithmState.positionsMatrix)
    ∧ (∀ st : AlgorithmState, (setUpGPU st).kernelSpeed = 3)
    ∧ (∀ st stq : AlgorithmState, computeNextPositions st = some stq →
        stq.kernelSpeed = st.kernelSpeed + 3
        ∧ stq.positionsMatrix
            = kernelRun st.kernelSize (st.kernelSpeed + 3) st.positionsMatrix)
    ∧ (∀ (st : AlgorithmState) (n : Nat) (stq : AlgorithmState),
        tickN n (setUpGPU st) = some stq → stq.kernelSpeed = 3 + 3 * n)
    ∧ (∀ B : ℚ, ∃ n : Nat, ∀ (st stq : AlgorithmState),
        tickN n (setUpGPU st) = some stq → B < stq.kernelSpeed) := by
  have h4 : ∀ (st : AlgorithmState) (n : Nat) (stq : AlgorithmState),
      tickN n (setUpGPU st) = some stq → stq.kernelSpeed = 3 + 3 * n := by
    intro st n stq h
    rw [tickN_kernelSpeed n _ _ h]
    norm_num [setUpGPU]
  refine ⟨?_, fun st => rfl, ?_, h4, ?_⟩
  · intro st u v
    exact (computeNextPositions_posMatrix_speed st u).trans
      (computeNextPositions_posMatrix_speed st v).symm
  · intro st stq h
    exact computeNextPositions_char h
  · intro B
    obtain ⟨n, hn⟩ := exists_nat_gt B
    refine ⟨n, fun st stq h => ?_⟩
    rw [h4 st n stq h]
    have hnn : (0 : ℚ) ≤ (n : ℚ) := Nat.cast_nonneg n
    linarith

/-- Witness for C10: on the concrete two-node state, the position grids for
`_speed = 5` and `_speed = 7` agree, and the kernel constant after one tick
from a fresh encode is 6. -/
theorem spring_c10_witness :
    (computeNextPositions { pairState with speed := 5 }).map
        AlgorithmState.positionsMatrix
      = (computeNextPositions { pairState with speed := 7 }).map
        AlgorithmState.positionsMatrix
    ∧ (tickN 1 (setUpGPU { initialState 1000 1000 with nodes := pairGraph })).map
        AlgorithmState.kernelSpeed = some 6 := by
  constructor
  · exact spring_c10.1 pairState 5 7
  · cases hc : tickN 1 (setUpGPU { initialState 1000 1000 with nodes := pairGraph }) with
    | none => exact absurd hc (by decide)
    | some stv =>
      have := spring_c10.2.2.2.1 { initialState 1000 1000 with nodes := pairGraph }
        1 stv hc
      rw [Option.map_some', this]
      norm_num

/-- Claim C1 (code bug): one tick does not apply the documented physical
model.  On `pairGraph` (two nodes 10 apart joined by an edge, exactly the
default rest length, so the model predicts a nonzero net repulsion pushing
the nodes in opposite directions), the kernel instead displaces both nodes
by the same constant offset `(6, 0.1)`, and the result is bit-identical
after changing charge, rest length, dampening and speed. -/
theorem spring_c1 :
    ((computeNextPositions pairState).map fun s => s.nodes.map fun n => (n.x, n.y))
      = some [(6, 1 / 10), (16, 1 / 10)]
    ∧ ((computeNextPositions { pairState with
          charge := 1, springRestLength := 99, springDampening := 7,
          speed := 5 }).map fun s => s.nodes.map fun n => (n.x, n.y))
      = some [(6, 1 / 10), (16, 1 / 10)]
    ∧ ((6 : ℚ) - 0, (1 / 10 : ℚ) - 0) = ((16 : ℚ) - 10, (1 / 10 : ℚ) - 0) := by
  have h1 : ((computeNextPositions pairState).map
      fun s => s.nodes.map fun n => (n.x, n.y))
        = some [(0 + (3 + 3), 0 + 1 / 10), (10 + (3 + 3), 0 + 1 / 10)] := rfl
  have h2 : ((computeNextPositions { pairState with
        charge := 1, springRestLength := 99, springDampening := 7,
        speed := 5 }).map fun s => s.nodes.map fun n => (n.x, n.y))
        = some [(0 + (3 + 3), 0 + 1 / 10), (10 + (3 + 3), 0 + 1 / 10)] := rfl
  rw [h1, h2]
  norm_num

/-- Claim C2 (code bug): a node whose fixed flag is set still moves.  The
encoded one-node graph with `isFixed = true` at `(0, 0)` is displaced to
`(6, 0.1)` by a single `computeNextPositions` call. -/
theorem spring_c2 :
    fixedState.nodes = [Node.mk 0 0 true []]
    ∧ ((computeNextPositions fixedState).map fun s => s.nodes)
        = some [Node.mk 6 (1 / 10) true []] := by
  have h1 : ((computeNextPositions fixedState).map fun s => s.nodes)
      = some [Node.mk (0 + (3 + 3)) (0 + 1 / 10) true []] := rfl
  refine ⟨rfl, ?_⟩
  rw [h1]
  norm_num

/-- Counterexample to C5 as stated: a strictly negative value is truthy in
JS, so `setProperties` stores it instead of keeping the prior value — the
"reject non-positive" policy only holds for zero. -/
theorem spring_c5_cex :
    (initialState 800 600).speed = 1 / 100
    ∧ (-5 : ℚ) < 0
    ∧ (setProperties (initialState 800 600)
        (Properties.mk (some (-5)) none none none)).speed = -5
    ∧ (initialState 800 600).springRestLength = 10
    ∧ (-7 : ℚ) < 0
    ∧ (setProperties (initialState 800 600)
        (Properties.mk none none (some (-7)) none)).springRestLength = -7 := by
  refine ⟨rfl, by norm_num, ?_, rfl, by norm_num, ?_⟩ <;>
    norm_num [setProperties, orDefault, initialState]

/-- Claim C5 (amended): a `speed` or `springRestLength` supplied as zero (or
absent — the falsy values) keeps its prior value, while the dampening and
charge fields of the same call still take effect, independent of what was
supplied for the rejected fields; the call never fails.  (Negative values
are truthy and are stored as given, see the counterexample.) -/
theorem spring_c5 (st : AlgorithmState) (p : Properties)
    (hs : p.speed = none ∨ p.speed = some 0)
    (hr : p.springRestLength = none ∨ p.springRestLength = some 0) :
    (setProperties st p).speed = st.speed
    ∧ (setProperties st p).springRestLength = st.springRestLength
    ∧ ∀ s r : Option ℚ,
        (setProperties st (Properties.mk s p.springDampening r p.charge)).springDampening
          = (setProperties st p).springDampening
        ∧ (setProperties st (Properties.mk s p.springDampening r p.charge)).charge
          = (setProperties st p).charge := by
  refine ⟨?_, ?_, fun s r => ⟨rfl, rfl⟩⟩
  · rcases hs with h | h <;> simp [setProperties, orDefault, h]
  · rcases hr with h | h <;> simp [setProperties, orDefault, h]

/-- Witness for C5 (amended) at a concrete call supplying `speed = 0`,
omitting the rest length, and setting the charge. -/
theorem spring_c5_witness :
    ((Properties.mk (some 0) none none (some 500)).speed = none
      ∨ (Properties.mk (some 0) none none (some 500)).speed = some 0)
    ∧ (setProperties (initialState 800 600)
        (Properties.mk (some 0) none none (some 500))).speed
        = (initialState 800 600).speed := by
  refine ⟨Or.inr rfl, ?_⟩
  exact (spring_c5 (initialState 800 600)
    (Properties.mk (some 0) none none (some 500)) (Or.inr rfl) (Or.inl rfl)).1

/-- Claim C6: `setProperties {charge: c}` with truthy `c` changes only the
charge field of the state, and in general every absent or zero (falsy)
option leaves the corresponding current value unchanged. -/
theorem spring_c6 (st : AlgorithmState) (c : ℚ) (hc : c ≠ 0) :
    setProperties st (Properties.mk none none none (some c))
        = { st with charge := c }
    ∧ ∀ p : Properties,
        ((p.speed = none ∨ p.speed = some 0) →
          (setProperties st p).speed = st.speed)
        ∧ ((p.springDampening = none ∨ p.springDampening = some 0) →
          (setProperties st p).springDampening = st.springDampening)
        ∧ ((p.springRestLength = none ∨ p.springRestLength = some 0) →
          (setProperties st p).springRestLength = st.springRestLength)
        ∧ ((p.charge = none ∨ p.charge = some 0) →
          (setProperties st p).charge = st.charge) := by
  constructor
  · simp [setProperties, orDefault, hc]
  · intro p
    refine ⟨?_, ?_, ?_, ?_⟩ <;> rintro (h | h) <;>
      simp [setProperties, orDefault, h]

/-- Witness for C6: setting `charge = 500` over the default configuration
changes the charge alone. -/
theorem spring_c6_witness :
    (500 : ℚ) ≠ 0
    ∧ setProperties (initialState 800 600)
        (Properties.mk none none none (some 500))
        = { initialState 800 600 with charge := 500 } :=
  ⟨by norm_num, (spring_c6 (initialState 800 600) 500 (by norm_num)).1⟩

/-- Claim C7 (code bug): for the empty graph the encoding does produce the
three empty (`0 × 0`) grids, but the subsequent `computeNextPositions` is
not a no-op: it reads `this._positionsMatrix[0].length` on an empty array,
which throws a `TypeError` in JS (modelled as `none`). -/
theorem spring_c7 :
    createGraphMatrices [] = ([], [], [])
    ∧ emptyState.positionsMatrix = []
    ∧ emptyState.nodesMatrix = []
    ∧ emptyState.adjacencyMatrix = []
    ∧ computeNextPositions emptyState = none := by
  refine ⟨rfl, rfl, rfl, rfl, rfl⟩

/-! ## The graph reset in `setGraph` -/

theorem setGraphNodes_getElemQ (w h : ℚ) (rand : Nat → ℚ)
    (graph : List Node) (i : Nat) :
    (setGraphNodes w h rand graph)[i]?
      = (graph[i]?).map fun node =>
          { node with x := w / 2 + 100 * rand (2 * i) - 50,
                      y := h / 2 + (100 * rand (2 * i + 1) - 50),
                      isFixed := false } := by
  unfold setGraphNodes
  simp [List.getElem?_mapIdx]

/-- Claim C9: `setGraph` discards all caller-supplied node state before
encoding.  Two graphs with the same neighbour structure yield identical
states regardless of their prior positions and fixed flags; each node's
position is overwritten with `centre + 100·random − 50` (which lies within
±50 of the canvas centre whenever the random oracle stays in `[0, 1)`), and
its fixed flag is cleared. -/
theorem spring_c9 :
    (∀ (st : AlgorithmState) (graph1 graph2 : List Node) (rand : Nat → ℚ),
        graph1.map Node.neighbours = graph2.map Node.neighbours →
        setGraph st graph1 rand = setGraph st graph2 rand)
    ∧ (∀ (w h : ℚ) (rand : Nat → ℚ) (graph : List Node) (i : Nat),
        (setGraphNodes w h rand graph)[i]?
          = (graph[i]?).map fun node =>
              { node with x := w / 2 + 100 * rand (2 * i) - 50,
                          y := h / 2 + (100 * rand (2 * i + 1) - 50),
                          isFixed := false })
    ∧ (∀ (w h : ℚ) (rand : Nat → ℚ) (graph : List Node) (i : Nat)
          (node : Node),
        (∀ m : Nat, 0 ≤ rand m ∧ rand m < 1) →
        (setGraphNodes w h rand graph)[i]? = some node →
        node.isFixed = false
        ∧ w / 2 - 50 ≤ node.x ∧ node.x < w / 2 + 50
        ∧ h / 2 - 50 ≤ node.y ∧ node.y < h / 2 + 50) := by
  refine ⟨?_, setGraphNodes_getElemQ, ?_⟩
  · intro st g1 g2 rand hnb
    have hsg : setGraphNodes st.width st.height rand g1
        = setGraphNodes st.width st.height rand g2 := by
      apply List.ext_getElem?
      intro i
      rw [setGraphNodes_getElemQ, setGraphNodes_getElemQ]
      have hgi : (g1[i]?).map Node.neighbours = (g2[i]?).map Node.neighbours := by
        rw [← List.getElem?_map, ← List.getElem?_map, hnb]
      cases h1 : g1[i]? with
      | none =>
        cases h2 : g2[i]? with
        | none => rfl
        | some n2 => rw [h1, h2] at hgi; exact Option.noConfusion hgi
      | some n1 =>
        cases h2 : g2[i]? with
        | none => rw [h1, h2] at hgi; exact Option.noConfusion hgi
        | some n2 =>
          rw [h1, h2] at hgi
          simp only [Option.map_some', Option.some.injEq] at hgi
          simp only [Option.map_some', Option.some.injEq]
          rw [hgi]
    unfold setGraph
    rw [hsg]
  · intro w h rand graph i node hrand hsome
    rw [setGraphNodes_getElemQ] at hsome
    cases hgi : graph[i]? with
    | none =>
      rw [hgi] at hsome
      exact Option.noConfusion hsome
    | some node0 =>
      rw [hgi] at hsome
      simp only [Option.map_some', Option.some.injEq] at hsome
      subst hsome
      obtain ⟨hx0, hx1⟩ := hrand (2 * i)
      obtain ⟨hy0, hy1⟩ := hrand (2 * i + 1)
      refine ⟨rfl, ?_, ?_, ?_, ?_⟩ <;> simp only [] <;> linarith

/-- Witness for C9: with the constant oracle `1/2`, two one-node graphs that
differ in position and fixed flag produce the same `setGraph` result, and
the produced node sits at the canvas centre with cleared flag. -/
theorem spring_c9_witness :
    setGraph (initialState 100 100) [Node.mk 7 8 true []] (fun _ => 1 / 2)
      = setGraph (initialState 100 100) [Node.mk 0 0 false []] (fun _ => 1 / 2)
    ∧ ((setGraphNodes 100 100 (fun _ => 1 / 2) [Node.mk 7 8 true []])[0]?).map
        Node.isFixed = some false := by
  constructor
  · exact spring_c9.1 (initialState 100 100) [Node.mk 7 8 true []]
      [Node.mk 0 0 false []] (fun _ => 1 / 2) rfl
  · cases hs : (setGraphNodes 100 100 (fun _ => 1 / 2)
        [Node.mk 7 8 true []])[0]? with
    | none =>
      rw [setGraphNodes_getElemQ] at hs
      exact Option.noConfusion hs
    | some node =>
      have := (spring_c9.2.2 100 100 (fun _ => 1 / 2) [Node.mk 7 8 true []] 0
        node (fun m => by norm_num) hs).1
      rw [Option.map_some', this]

/-- Witness for C3 at the concrete graph `pairGraph`. -/
theorem spring_c3_witness :
    decodeGraph (createGraphMatrices pairGraph).1 pairGraph = pairGraph :=
  spring_c3 pairGraph
